import Mathlib

/-!
Shallow embedding of the HDFS→Ozone Ranger policy migration tool
(`ranger_policy_migration_v2.py`) and verification of its specification.

Strings are manipulated at the character-list level so that every
operation is a structurally recursive, kernel-evaluable function.
-/

namespace RangerMigration

/-- One access grant, as in a Ranger `accesses` entry:
`{'type': ..., 'isAllowed': ...}`. -/
structure Access where
  type : String
  isAllowed : Bool
deriving DecidableEq, Repr

/-- One Ranger `policyItems` entry. -/
structure PolicyItem where
  users : List String
  groups : List String
  roles : List String
  accesses : List Access
deriving DecidableEq, Repr

/-- An HDFS (source) Ranger policy, flattened to the fields the converter
reads: its name, its `resources.path.values`, and its `policyItems`. -/
structure SourcePolicy where
  name : String
  paths : List String
  policyItems : List PolicyItem
deriving DecidableEq, Repr

/-- An Ozone (target) Ranger policy, flattened to the fields the converter
writes: service, name, description, the `volume`, `bucket` and `key`
resource value lists, and `policyItems`. -/
structure TargetPolicy where
  service : String
  name : String
  description : String
  volume : List String
  bucket : Option (List String)
  key : Option (List String)
  keyRecursive : Bool
  policyItems : List PolicyItem
deriving DecidableEq, Repr

/-- Loop body of `convert_permissions_hdfs_to_ozone`: one pass over the
input accesses, emitting `read`/`write` grants in encounter order while
tracking which of read/write/execute has been seen. -/
def convStep : (List Access × Bool × Bool × Bool) → Access → (List Access × Bool × Bool × Bool)
  | (out, hr, hw, hx), a =>
    if a.type = "read" then (out ++ [⟨"read", true⟩], true, hw, hx)
    else if a.type = "write" then (out ++ [⟨"write", true⟩], hr, true, hx)
    else if a.type = "execute" then (out, hr, hw, true)
    else (out, hr, hw, hx)

/-- `convert_permissions_hdfs_to_ozone`: translate HDFS read/write/execute
grants into Ozone read/write/list/create/delete grants. -/
def convert_permissions_hdfs_to_ozone (hdfs_accesses : List Access) : List Access :=
  match hdfs_accesses.foldl convStep ([], false, false, false) with
  | (out, hr, hw, hx) =>
    out ++ (if hr && hx then [⟨"list", true⟩] else [])
        ++ (if hw && hx then [⟨"create", true⟩, ⟨"delete", true⟩] else [])

/-- `convert_posix_to_ozone_permissions`: translate a POSIX `rwx` bit
string into Ozone grants. -/
def convert_posix_to_ozone_permissions (posix_perms : String) : List Access :=
  let has_read := posix_perms.toList.contains 'r'
  let has_write := posix_perms.toList.contains 'w'
  let has_execute := posix_perms.toList.contains 'x'
  (if has_read then [⟨"read", true⟩] else [])
  ++ (if has_write then [⟨"write", true⟩] else [])
  ++ (if has_read && has_execute then [⟨"list", true⟩] else [])
  ++ (if has_write && has_execute then [⟨"create", true⟩, ⟨"delete", true⟩] else [])

/-- The per-access emission of the single pass: a `read` or `write` grant
is copied through (with `isAllowed` forced to true); everything else
emits nothing. -/
def emitOf (a : Access) : Option Access :=
  if a.type = "read" then some ⟨"read", true⟩
  else if a.type = "write" then some ⟨"write", true⟩
  else none

/-- Whether some input grant has permission kind `k`. -/
def hasKind (l : List Access) (k : String) : Bool :=
  l.any (fun a => a.type = k)

theorem convFold (l : List Access) (out : List Access) (hr hw hx : Bool) :
    l.foldl convStep (out, hr, hw, hx) =
      (out ++ l.filterMap emitOf,
       hr || hasKind l "read",
       hw || hasKind l "write",
       hx || hasKind l "execute") := by
  induction l generalizing out hr hw hx with
  | nil => simp [hasKind]
  | cons a t ih =>
    simp only [List.foldl_cons, convStep]
    by_cases h1 : a.type = "read"
    · simp [h1, ih, emitOf, hasKind, List.filterMap_cons]
    · by_cases h2 : a.type = "write"
      · simp [h1, h2, ih, emitOf, hasKind, List.filterMap_cons]
      · by_cases h3 : a.type = "execute"
        · simp [h1, h2, h3, ih, emitOf, hasKind, List.filterMap_cons]
        · simp [h1, h2, h3, ih, emitOf, hasKind, List.filterMap_cons]

theorem convert_perm_eq (l : List Access) :
    convert_permissions_hdfs_to_ozone l =
      l.filterMap emitOf
      ++ (if hasKind l "read" && hasKind l "execute" then [⟨"list", true⟩] else [])
      ++ (if hasKind l "write" && hasKind l "execute" then [⟨"create", true⟩, ⟨"delete", true⟩] else []) := by
  have h := convFold l [] false false false
  simp only [convert_permissions_hdfs_to_ozone, h, Bool.false_or, List.nil_append]

theorem hasKind_cons (a : Access) (l : List Access) (k : String) :
    hasKind (a :: l) k = (decide (a.type = k) || hasKind l k) := by
  simp [hasKind]

theorem mem_filterMap_emitOf_types (l : List Access) (t : String) :
    t ∈ (l.filterMap emitOf).map Access.type ↔
      (t = "read" ∧ hasKind l "read" = true)
      ∨ (t = "write" ∧ hasKind l "write" = true) := by
  induction l with
  | nil => simp [hasKind]
  | cons a rest ih =>
    simp only [List.filterMap_cons, hasKind_cons]
    by_cases h1 : a.type = "read"
    · simp [emitOf, h1, ih]
      tauto
    · by_cases h2 : a.type = "write"
      · simp [emitOf, h1, h2, ih]
        tauto
      · simp [emitOf, h1, h2, ih]

/-- The permission kinds appearing in the output of
`convert_permissions_hdfs_to_ozone`, characterized by the kinds present
in the input. -/
theorem mem_convTypes (l : List Access) (t : String) :
    t ∈ (convert_permissions_hdfs_to_ozone l).map Access.type ↔
      (t = "read" ∧ hasKind l "read" = true)
      ∨ (t = "write" ∧ hasKind l "write" = true)
      ∨ (t = "list" ∧ hasKind l "read" = true ∧ hasKind l "execute" = true)
      ∨ ((t = "create" ∨ t = "delete") ∧ hasKind l "write" = true ∧ hasKind l "execute" = true) := by
  rw [convert_perm_eq, List.map_append, List.map_append]
  simp only [List.mem_append, mem_filterMap_emitOf_types]
  cases hR : hasKind l "read" <;> cases hW : hasKind l "write" <;> cases hX : hasKind l "execute" <;>
    simp [hR, hW, hX] <;> tauto

/-- The list of permission kinds emitted by `convert_permissions_hdfs_to_ozone`. -/
def outKinds (l : List Access) : List String :=
  (convert_permissions_hdfs_to_ozone l).map Access.type

/-- The list of permission kinds emitted by `convert_posix_to_ozone_permissions`. -/
def posixKinds (s : String) : List String :=
  (convert_posix_to_ozone_permissions s).map Access.type

/-- The per-kind emission on permission-kind strings; `emitOf` factors
through `Access.type` via this function. -/
def emitT (t : String) : Option Access :=
  if t = "read" then some ⟨"read", true⟩
  else if t = "write" then some ⟨"write", true⟩
  else none

theorem emitOf_eq_emitT (a : Access) : emitOf a = emitT a.type := rfl

theorem hasKind_congr (l₁ l₂ : List Access) (k : String)
    (h : l₁.map Access.type = l₂.map Access.type) : hasKind l₁ k = hasKind l₂ k := by
  unfold hasKind
  have h1 : ∀ l : List Access,
      (l.any fun a => decide (a.type = k)) = (l.map Access.type).any fun s => decide (s = k) := by
    intro l
    induction l with
    | nil => rfl
    | cons a t ih => simp [List.any_cons, ih]
  rw [h1, h1, h]

/-- C1: the permission translation emits `read` iff `read` is in the input,
`write` iff `write` is in the input, `list` iff both `read` and `execute`
are, `create` and `delete` iff both `write` and `execute` are, nothing for
`execute` alone or for unknown kinds — both for grant lists
(`convert_permissions_hdfs_to_ozone`) and for POSIX rwx strings
(`convert_posix_to_ozone_permissions`). -/
theorem conv_perm_translation_correct (l : List Access) (s : String) :
    ("read" ∈ outKinds l ↔ hasKind l "read" = true)
    ∧ ("write" ∈ outKinds l ↔ hasKind l "write" = true)
    ∧ ("list" ∈ outKinds l ↔ (hasKind l "read" = true ∧ hasKind l "execute" = true))
    ∧ ("create" ∈ outKinds l ↔ (hasKind l "write" = true ∧ hasKind l "execute" = true))
    ∧ ("delete" ∈ outKinds l ↔ (hasKind l "write" = true ∧ hasKind l "execute" = true))
    ∧ (∀ t, t ∈ outKinds l →
        t = "read" ∨ t = "write" ∨ t = "list" ∨ t = "create" ∨ t = "delete")
    ∧ ("read" ∈ posixKinds s ↔ s.toList.contains 'r' = true)
    ∧ ("write" ∈ posixKinds s ↔ s.toList.contains 'w' = true)
    ∧ ("list" ∈ posixKinds s ↔ (s.toList.contains 'r' = true ∧ s.toList.contains 'x' = true))
    ∧ ("create" ∈ posixKinds s ↔ (s.toList.contains 'w' = true ∧ s.toList.contains 'x' = true))
    ∧ ("delete" ∈ posixKinds s ↔ (s.toList.contains 'w' = true ∧ s.toList.contains 'x' = true)) := by
  refine ⟨?_, ?_, ?_, ?_, ?_, ?_, ?_, ?_, ?_, ?_, ?_⟩
  · rw [outKinds, mem_convTypes]; simp
  · rw [outKinds, mem_convTypes]; simp
  · rw [outKinds, mem_convTypes]; simp
  · rw [outKinds, mem_convTypes]; simp
  · rw [outKinds, mem_convTypes]; simp
  · intro t ht
    rw [outKinds, mem_convTypes] at ht
    tauto
  all_goals
    unfold posixKinds convert_posix_to_ozone_permissions

    cases hr : s.toList.contains 'r' <;> cases hw : s.toList.contains 'w' <;>
      cases hx : s.toList.contains 'x' <;> simp [hr, hw, hx]

/-- C1 witness: the translation evaluated at the concrete grant list
[read, execute] and the POSIX string "r-x". -/
theorem conv_perm_translation_correct_witness :
    ("list" ∈ outKinds [⟨"read", true⟩, ⟨"execute", true⟩] ↔
      (hasKind [⟨"read", true⟩, ⟨"execute", true⟩] "read" = true ∧
       hasKind [⟨"read", true⟩, ⟨"execute", true⟩] "execute" = true))
    ∧ ("list" ∈ posixKinds "r-x" ↔
      ("r-x".toList.contains 'r' = true ∧ "r-x".toList.contains 'x' = true)) :=
  ⟨(conv_perm_translation_correct [⟨"read", true⟩, ⟨"execute", true⟩] "r-x").2.2.1,
   (conv_perm_translation_correct [⟨"read", true⟩, ⟨"execute", true⟩] "r-x").2.2.2.2.2.2.2.2.1⟩

/-- C8: the permission translation is monotonic — if every permission kind
of grant list A also occurs in grant list B, then every kind emitted for A
is emitted for B. -/
theorem conv_perm_monotone (A B : List Access)
    (h : ∀ t : String, hasKind A t = true → hasKind B t = true) :
    ∀ t, t ∈ outKinds A → t ∈ outKinds B := by
  intro t ht
  rw [outKinds, mem_convTypes] at ht ⊢
  rcases ht with ⟨ht, hk⟩ | ⟨ht, hk⟩ | ⟨ht, hk1, hk2⟩ | ⟨ht, hk1, hk2⟩
  · exact Or.inl ⟨ht, h _ hk⟩
  · exact Or.inr (Or.inl ⟨ht, h _ hk⟩)
  · exact Or.inr (Or.inr (Or.inl ⟨ht, h _ hk1, h _ hk2⟩))
  · exact Or.inr (Or.inr (Or.inr ⟨ht, h _ hk1, h _ hk2⟩))

/-- C8 witness: monotonicity applied to the concrete pair
A = [read], B = [read, execute]. -/
theorem conv_perm_monotone_witness :
    "read" ∈ outKinds [(⟨"read", true⟩ : Access), ⟨"execute", true⟩] :=
  conv_perm_monotone [⟨"read", true⟩] [⟨"read", true⟩, ⟨"execute", true⟩]
    (by intro t ht; simp [hasKind] at ht ⊢; tauto) "read" (by decide)

/-- C10: `convert_permissions_hdfs_to_ozone` inspects only the permission
kind of each grant, never its isAllowed flag — two inputs with the same
kinds in the same order translate identically — and every emitted grant
carries isAllowed = true. -/
theorem conv_perm_ignores_isAllowed (l₁ l₂ : List Access)
    (h : l₁.map Access.type = l₂.map Access.type) :
    convert_permissions_hdfs_to_ozone l₁ = convert_permissions_hdfs_to_ozone l₂
    ∧ (∀ a, a ∈ convert_permissions_hdfs_to_ozone l₁ → a.isAllowed = true) := by
  constructor
  · rw [convert_perm_eq, convert_perm_eq]
    have hfm : ∀ l : List Access, l.filterMap emitOf = (l.map Access.type).filterMap emitT := by
      intro l
      rw [List.filterMap_map]
      rfl
    rw [hfm, hfm, h,
      hasKind_congr l₁ l₂ "read" h, hasKind_congr l₁ l₂ "write" h,
      hasKind_congr l₁ l₂ "execute" h]
  · intro a ha
    rw [convert_perm_eq] at ha
    simp only [List.mem_append] at ha
    rcases ha with (ha | ha) | ha
    · rcases List.mem_filterMap.mp ha with ⟨b, _, hb⟩
      unfold emitOf at hb
      by_cases h1 : b.type = "read"
      · simp [h1] at hb; rw [← hb]
      · by_cases h2 : b.type = "write"
        · simp [h1, h2] at hb; rw [← hb]
        · simp [h1, h2] at hb
    · by_cases hc : hasKind l₁ "read" && hasKind l₁ "execute"
      · simp [hc] at ha; rw [ha]
      · simp [hc] at ha
    · by_cases hc : hasKind l₁ "write" && hasKind l₁ "execute"
      · simp [hc] at ha; rcases ha with ha | ha <;> rw [ha]
      · simp [hc] at ha

/-- C10 witness: a deny-style `read` grant translates exactly like the
allowed one, and the output is an allow grant. -/
theorem conv_perm_ignores_isAllowed_witness :
    convert_permissions_hdfs_to_ozone [⟨"read", false⟩]
      = convert_permissions_hdfs_to_ozone [⟨"read", true⟩]
    ∧ (∀ a, a ∈ convert_permissions_hdfs_to_ozone [⟨"read", false⟩] → a.isAllowed = true) :=
  conv_perm_ignores_isAllowed [⟨"read", false⟩] [⟨"read", true⟩] (by decide)

/-- Drops `p` from the front of `s`, or fails; the character-level
engine behind anchored literal regex prefixes and `str.startswith`. -/
def chompPre : List Char → List Char → Option (List Char)
  | [], s => some s
  | _ :: _, [] => none
  | c :: cs, d :: ds => if c = d then chompPre cs ds else none

/-- Python `str.startswith` at the character level. -/
def listStartsWith (p s : List Char) : Bool :=
  (chompPre p s).isSome

/-- Python `str.rstrip('/')` at the character level. -/
def rstripSlash (s : List Char) : List Char :=
  (s.reverse.dropWhile (· = '/')).reverse

/-- Python `str.split(c)` (split on every occurrence, no maximum) at the
character level; on the empty string it yields one empty field. -/
def splitOnChar (c : Char) : List Char → List (List Char)
  | [] => [[]]
  | d :: rest =>
    let r := splitOnChar c rest
    if d = c then [] :: r
    else (d :: r.headD []) :: r.tail

/-- `extract_fid_from_path`: `re.match(r'/data/([^/]+)', hdfs_path)` and
return group 1, i.e. the nonempty run of non-slash characters after the
literal prefix `/data/`, or `None` when the path does not start with it. -/
def extract_fid_from_path (hdfs_path : String) : Option String :=
  (chompPre "/data/".toList hdfs_path.toList).bind (fun rest =>
    if rest.takeWhile (fun c => c ≠ '/') = [] then none
    else some (String.mk (rest.takeWhile (fun c => c ≠ '/'))))

/-- `get_hdfs_policies_for_fid`: keep the policies having at least one
path that starts with the string `/data/{fid}` (Python `startswith`,
with no trailing slash appended). -/
def get_hdfs_policies_for_fid (fid : String) (hdfs_policies : List SourcePolicy) :
    List SourcePolicy :=
  hdfs_policies.filter
    (fun p => p.paths.any (fun q => listStartsWith ("/data/".toList ++ fid.toList) q.toList))

theorem chompPre_append (p s : List Char) : chompPre p (p ++ s) = some s := by
  induction p with
  | nil => rfl
  | cons c cs ih => simp [chompPre, ih]

theorem takeWhile_append_stop (p : Char → Bool) (l r : List Char)
    (hl : ∀ c ∈ l, p c = true)
    (hr : (∃ d t, r = d :: t ∧ p d = false) ∨ r = []) :
    (l ++ r).takeWhile p = l := by
  induction l with
  | nil =>
    rcases hr with ⟨d, t, rfl, hd⟩ | rfl
    · simp [List.takeWhile_cons, hd]
    · rfl
  | cons c cs ih =>
    rw [List.cons_append, List.takeWhile_cons, if_pos (hl c (List.mem_cons_self _ _))]
    rw [ih (fun d hd => hl d (List.mem_cons_of_mem _ hd))]

/-- C9 failing input: the source policy whose only path lives under
`/data/fid10` — a different root identifier than `fid1`. -/
def pFid10 : SourcePolicy :=
  { name := "pol10", paths := ["/data/fid10/raw/k"], policyItems := [] }

/-- C9: the per-identifier selection matches by raw string prefix
`/data/{fid}` without a trailing slash, so a policy whose paths all
belong to root identifier `fid10` is nevertheless selected for `fid1`,
although its extracted root identifier is `fid10`, not `fid1`. -/
theorem fid_prefix_selection_overmatch :
    get_hdfs_policies_for_fid "fid1" [pFid10] = [pFid10]
    ∧ extract_fid_from_path "/data/fid10/raw/k" = some "fid10"
    ∧ "fid10" ≠ "fid1" := by
  refine ⟨?_, ?_, ?_⟩ <;> decide

/-- C4 counterexample: for the spec's own example path `/ns/fid7/raw/x`
the extractor returns `none`, not the third segment `fid7`: the
namespace prefix must literally be `data`. -/
theorem extract_fid_nondata_ns_cex :
    extract_fid_from_path "/ns/fid7/raw/x" = none
    ∧ (splitOnChar '/' "/ns/fid7/raw/x".toList)[2]? = some "fid7".toList := by
  refine ⟨?_, ?_⟩ <;> decide

/-- C4 (amended): when the namespace prefix is literally `data`, the
extractor returns the path's third segment: for a path of the form
`/data/<fid>` or `/data/<fid>/...` with `<fid>` a nonempty slash-free
segment, the result is `<fid>`; other namespace prefixes yield `none`. -/
theorem extract_fid_data_ns_third_segment (fid rest : List Char)
    (hne : fid ≠ []) (hslash : '/' ∉ fid)
    (hrest : rest.head? = some '/' ∨ rest = []) :
    extract_fid_from_path (String.mk ("/data/".toList ++ fid ++ rest)) = some (String.mk fid) := by
  unfold extract_fid_from_path
  have htl : (String.mk ("/data/".toList ++ fid ++ rest)).toList
      = "/data/".toList ++ (fid ++ rest) := by
    simp [String.toList]
  rw [htl, chompPre_append, Option.some_bind]
  have htw : (fid ++ rest).takeWhile (fun c => decide (c ≠ '/')) = fid := by
    refine takeWhile_append_stop _ fid rest (fun c hc => ?_) ?_
    · exact decide_eq_true (fun h => hslash (h ▸ hc))
    · rcases hrest with h | h
      · cases rest with
        | nil => simp at h
        | cons d t =>
          simp only [List.head?] at h
          left
          refine ⟨d, t, rfl, ?_⟩
          have : d = '/' := by injection h
          simp [this]
      · right; exact h
  rw [htw, if_neg hne]

/-- C4 witness: the amended statement evaluated at `/data/fid7/raw/x`. -/
theorem extract_fid_data_ns_third_segment_witness :
    extract_fid_from_path (String.mk ("/data/".toList ++ ['f', 'i', 'd', '7'] ++ "/raw/x".toList))
      = some (String.mk ['f', 'i', 'd', '7']) :=
  extract_fid_data_ns_third_segment ['f', 'i', 'd', '7'] "/raw/x".toList
    (by decide) (by decide) (by decide)

/-- The level a single path classifies at: 3 segments (after stripping
trailing slashes and splitting on `/`) is volume level, 4 is bucket
level, 5 or more is key level, fewer than 3 is unclassified. -/
inductive PathLevel | volume | bucket | key
deriving DecidableEq, Repr

/-- The branch conditions of the path loop in `categorize_hdfs_policies`. -/
def classifyPath (path : String) : Option PathLevel :=
  let parts := splitOnChar '/' (rstripSlash path.toList)
  if parts.length = 3 then some .volume
  else if parts.length = 4 then some .bucket
  else if parts.length ≥ 5 then some .key
  else none

/-- Loop body of `categorize_hdfs_policies`: scan the policy's paths in
order and `break` at the first one that classifies, appending the policy
to that level's list. -/
def categorizeStep (acc : List SourcePolicy × List SourcePolicy × List SourcePolicy)
    (p : SourcePolicy) : List SourcePolicy × List SourcePolicy × List SourcePolicy :=
  match p.paths.findSome? classifyPath with
  | some .volume => (acc.1 ++ [p], acc.2.1, acc.2.2)
  | some .bucket => (acc.1, acc.2.1 ++ [p], acc.2.2)
  | some .key => (acc.1, acc.2.1, acc.2.2 ++ [p])
  | none => acc

/-- `categorize_hdfs_policies`: split policies into volume- / bucket- /
key-level lists. -/
def categorize_hdfs_policies (hdfs_policies : List SourcePolicy) :
    List SourcePolicy × List SourcePolicy × List SourcePolicy :=
  hdfs_policies.foldl categorizeStep ([], [], [])

/-- C2 counterexample: a policy with a 4-segment path first and a
5-segment path second. The second path classifies at key (LEAF) level,
yet the policy is placed in the bucket partition only — the key
partition is empty, refuting "assigned to every level any of its paths
implies". -/
def pC2 : SourcePolicy :=
  { name := "multi", paths := ["/data/fid1/raw", "/data/fid1/raw/k1"], policyItems := [] }

theorem categorize_first_path_only_cex :
    classifyPath "/data/fid1/raw/k1" = some PathLevel.key
    ∧ categorize_hdfs_policies [pC2] = ([], [pC2], []) := by
  refine ⟨?_, ?_⟩ <;> decide

theorem categorize_foldl_eq (ps : List SourcePolicy)
    (acc : List SourcePolicy × List SourcePolicy × List SourcePolicy) :
    ps.foldl categorizeStep acc =
      (acc.1 ++ ps.filter (fun p => p.paths.findSome? classifyPath = some PathLevel.volume),
       acc.2.1 ++ ps.filter (fun p => p.paths.findSome? classifyPath = some PathLevel.bucket),
       acc.2.2 ++ ps.filter (fun p => p.paths.findSome? classifyPath = some PathLevel.key)) := by
  induction ps generalizing acc with
  | nil => simp
  | cons p t ih =>
    simp only [List.foldl_cons, List.filter_cons]
    cases hp : p.paths.findSome? classifyPath with
    | none =>
      rw [show categorizeStep acc p = acc by unfold categorizeStep; rw [hp]]
      rw [ih]
      simp [hp]
    | some lv =>
      cases lv
      · rw [show categorizeStep acc p = (acc.1 ++ [p], acc.2.1, acc.2.2) by
          unfold categorizeStep; rw [hp]]
        rw [ih]
        simp [hp]
      · rw [show categorizeStep acc p = (acc.1, acc.2.1 ++ [p], acc.2.2) by
          unfold categorizeStep; rw [hp]]
        rw [ih]
        simp [hp]
      · rw [show categorizeStep acc p = (acc.1, acc.2.1, acc.2.2 ++ [p]) by
          unfold categorizeStep; rw [hp]]
        rw [ih]
        simp [hp]

/-- C2 (amended): classification scans each policy's paths in order and
assigns the policy to exactly the level of its first classifiable path;
later paths never add the policy to further partitions, and a policy
with no path of 3 or more segments lands nowhere. -/
theorem categorize_first_classifying_path (ps : List SourcePolicy) :
    categorize_hdfs_policies ps =
      (ps.filter (fun p => p.paths.findSome? classifyPath = some PathLevel.volume),
       ps.filter (fun p => p.paths.findSome? classifyPath = some PathLevel.bucket),
       ps.filter (fun p => p.paths.findSome? classifyPath = some PathLevel.key)) := by
  rw [categorize_hdfs_policies, categorize_foldl_eq]
  simp

/-- Append a value to a list unless already present: the insertion-order
determinization of a Python `set` accumulated with `add`/`update`. -/
def dedupAppend (l : List String) (x : String) : List String :=
  if x ∈ l then l else l ++ [x]

/-- `extract_bucket_and_key_from_path`: match the stripped path against
`re.match(f'/data/{fid}/([^/]+)/(.*)')`; returns (bucket, key), where an
empty group 2 becomes the wildcard `*`, or (None, None) when there is no
match — in particular when nothing follows the bucket segment. -/
def extract_bucket_and_key_from_path (hdfs_path : String) (fid : String) :
    Option String × Option String :=
  match chompPre ("/data/".toList ++ fid.toList ++ ['/']) (rstripSlash hdfs_path.toList) with
  | none => (none, none)
  | some rest =>
    let bucket := rest.takeWhile (fun c => c ≠ '/')
    if bucket = [] then (none, none)
    else
      match rest.dropWhile (fun c => c ≠ '/') with
      | [] => (none, none)
      | _ :: key =>
        (some (String.mk bucket), some (if key = [] then "*" else String.mk key))

/-- `create_ozone_volume_policy`. -/
def create_ozone_volume_policy (fid : String) (users groups roles : List String)
    (ozone_service : String) : TargetPolicy :=
  { service := ozone_service
    name := fid ++ "_volume_policy"
    description := ""
    volume := [fid]
    bucket := none
    key := none
    keyRecursive := false
    policyItems := [{ users := users, groups := groups, roles := roles,
                      accesses := [⟨"read", true⟩] }] }

/-- `create_ozone_bucket_policy`: one bucket-level policy listing every
collected bucket name. -/
def create_ozone_bucket_policy (fid : String) (buckets : List String)
    (users groups roles : List String) (ozone_service : String) : TargetPolicy :=
  { service := ozone_service
    name := fid ++ "_bucket_policy"
    description := ""
    volume := [fid]
    bucket := some buckets
    key := none
    keyRecursive := false
    policyItems := [{ users := users, groups := groups, roles := roles,
                      accesses := [⟨"read", true⟩] }] }

/-- `create_ozone_key_policy`: key-level policy for one (bucket, key)
pair, with the source policy's items translated through
`convert_permissions_hdfs_to_ozone`. -/
def create_ozone_key_policy (fid bucket key : String) (hdfs_policy : SourcePolicy)
    (ozone_service : String) : TargetPolicy :=
  { service := ozone_service
    name := fid ++ "_" ++ bucket ++ "_" ++ key ++ "_key_policy"
    description := ""
    volume := [fid]
    bucket := some [bucket]
    key := some [key]
    keyRecursive := true
    policyItems := hdfs_policy.policyItems.map (fun it =>
      { users := it.users, groups := it.groups, roles := it.roles,
        accesses := convert_permissions_hdfs_to_ozone it.accesses }) }

/-- Union of users/groups/roles over all policy items of all policies, as
in `convert_hdfs_policies_for_fid`. -/
def collectPrincipals (ps : List SourcePolicy) : List String × List String × List String :=
  ps.foldl (fun acc p =>
    p.policyItems.foldl (fun acc2 it =>
      (it.users.foldl dedupAppend acc2.1,
       it.groups.foldl dedupAppend acc2.2.1,
       it.roles.foldl dedupAppend acc2.2.2)) acc) ([], [], [])

/-- The distinct bucket names collected from bucket-level and key-level
policies in `convert_hdfs_policies_for_fid`. -/
def collectBuckets (fid : String) (bucket_and_key_policies : List SourcePolicy) : List String :=
  bucket_and_key_policies.foldl (fun acc p =>
    p.paths.foldl (fun acc2 path =>
      match (extract_bucket_and_key_from_path path fid).1 with
      | some b => dedupAppend acc2 b
      | none => acc2) acc) []

/-- `convert_hdfs_policies_for_fid`: synthesize the Ozone policies for a
single root identifier from its HDFS policies — a volume policy when any
principal exists, a bucket policy when any bucket name was collected,
and one key policy per (bucket, key) extracted from key-level paths. -/
def convert_hdfs_policies_for_fid (fid : String) (hdfs_policies : List SourcePolicy)
    (ozone_service : String) : List TargetPolicy :=
  let cat := categorize_hdfs_policies hdfs_policies
  let prin := collectPrincipals hdfs_policies
  let volPart : List TargetPolicy :=
    if prin.1 ≠ [] ∨ prin.2.1 ≠ [] ∨ prin.2.2 ≠ [] then
      [create_ozone_volume_policy fid prin.1 prin.2.1 prin.2.2 ozone_service]
    else []
  let all_buckets := collectBuckets fid (cat.2.1 ++ cat.2.2)
  let bktPart : List TargetPolicy :=
    if all_buckets ≠ [] then
      [create_ozone_bucket_policy fid all_buckets prin.1 prin.2.1 prin.2.2 ozone_service]
    else []
  let keyPart : List TargetPolicy :=
    cat.2.2.flatMap (fun p =>
      p.paths.filterMap (fun path =>
        match extract_bucket_and_key_from_path path fid with
        | (some b, some k) => some (create_ozone_key_policy fid b k p ozone_service)
        | _ => none))
  volPart ++ bktPart ++ keyPart

/-- C5 failing input: a CONTAINER-level policy whose single path has
exactly 4 segments, with a principal so a volume policy is emitted. -/
def pC5 : SourcePolicy :=
  { name := "bucketlevel", paths := ["/data/fid1/raw"],
    policyItems := [{ users := ["u1"], groups := [], roles := [],
                      accesses := [⟨"read", true⟩] }] }

/-- C5: the bucket-extraction regex demands a slash after the container
segment while the path was first stripped of trailing slashes, so a
CONTAINER-level path with exactly 4 segments yields no bucket: the
container name `raw` is not collected and no CONTAINER-level TargetPolicy
is emitted, contradicting the claim. -/
theorem container_path_bucket_not_collected :
    classifyPath "/data/fid1/raw" = some PathLevel.bucket
    ∧ extract_bucket_and_key_from_path "/data/fid1/raw" "fid1" = (none, none)
    ∧ extract_bucket_and_key_from_path "/data/fid1/raw/" "fid1" = (none, none)
    ∧ convert_hdfs_policies_for_fid "fid1" [pC5] "cm_ozone"
        = [create_ozone_volume_policy "fid1" ["u1"] [] [] "cm_ozone"] := by
  refine ⟨?_, ?_, ?_, ?_⟩ <;> decide

/-- C3 counterexample inputs: two LEAF-level policies under distinct
containers of the same root identifier. -/
def pC3a : SourcePolicy :=
  { name := "k1", paths := ["/data/fid1/raw/k"],
    policyItems := [{ users := ["u1"], groups := [], roles := [],
                      accesses := [⟨"read", true⟩] }] }

def pC3b : SourcePolicy :=
  { name := "k2", paths := ["/data/fid1/eng/k"],
    policyItems := [{ users := ["u2"], groups := [], roles := [],
                      accesses := [⟨"read", true⟩] }] }

/-- C3 counterexample: when two distinct container names are collected,
the emitted CONTAINER-level policy names both of them in its bucket
resource — two buckets, not at most one. -/
theorem bucket_policy_multi_bucket_cex :
    (convert_hdfs_policies_for_fid "fid1" [pC3a, pC3b] "svc")[1]?
      = some (create_ozone_bucket_policy "fid1" ["raw", "eng"] ["u1", "u2"] [] [] "svc")
    ∧ (create_ozone_bucket_policy "fid1" ["raw", "eng"] ["u1", "u2"] [] [] "svc").bucket
      = some ["raw", "eng"] := by
  refine ⟨?_, ?_⟩ <;> decide

/-- Python whitespace for `str.strip()`. -/
def isPySpace (c : Char) : Bool :=
  c = ' ' || c = '\t' || c = '\n' || c = '\r' || c = '\x0b' || c = '\x0c'

/-- Python `str.strip()` at the character level. -/
def trimChars (s : List Char) : List Char :=
  ((s.dropWhile isPySpace).reverse.dropWhile isPySpace).reverse

/-- Everything after the first occurrence of `c`: Python
`s.split(c, 1)[1]` when `c` occurs, `[]` otherwise. -/
def afterChar (c : Char) : List Char → List Char
  | [] => []
  | d :: rest => if d = c then rest else afterChar c rest

/-- The stripped lines of a getfacl output, as the parsers see them:
`facl_output.strip().splitlines()` with each line then stripped. -/
def faclLines (facl_output : String) : List (List Char) :=
  (splitOnChar '\n' (trimChars facl_output.toList)).map trimChars

/-- Loop body of `parse_hdfs_facl`; state is
(users, groups, owner, primary group). -/
def parseFaclStep (st : List String × List String × List Char × List Char)
    (line : List Char) : List String × List String × List Char × List Char :=
  let users := st.1
  let groups := st.2.1
  let owner := st.2.2.1
  let primary := st.2.2.2
  if line = [] then st
  else if listStartsWith "# owner:".toList line then
    (users, groups, trimChars (afterChar ':' line), primary)
  else if listStartsWith "# group:".toList line then
    (users, groups, owner, trimChars (afterChar ':' line))
  else if listStartsWith "user:".toList line then
    match splitOnChar ':' line with
    | _ :: p1 :: p2 :: _ =>
      if p2.contains 'r' then
        if p1 ≠ [] then (dedupAppend users (String.mk p1), groups, owner, primary)
        else if owner ≠ [] then (dedupAppend users (String.mk owner), groups, owner, primary)
        else st
      else st
    | _ => st
  else if listStartsWith "group:".toList line then
    match splitOnChar ':' line with
    | _ :: p1 :: p2 :: _ =>
      if p2.contains 'r' then
        if p1 ≠ [] then (users, dedupAppend groups (String.mk p1), owner, primary)
        else if primary ≠ [] then (users, dedupAppend groups (String.mk primary), owner, primary)
        else st
      else st
    | _ => st
  else st

/-- `parse_hdfs_facl`: the users and groups holding read permission in a
getfacl output, with `user::`/`group::` entries resolved to the owner
and primary group. -/
def parse_hdfs_facl (facl_output : String) : List String × List String :=
  let fin := (faclLines facl_output).foldl parseFaclStep ([], [], [], [])
  (fin.1, fin.2.1)

/-- Loop body of the second pass of `parse_hdfs_facl_full_permissions`;
state is (permission items, processed users, processed groups). -/
def parseFaclFullStep (owner primary : List Char)
    (st : List PolicyItem × List String × List String)
    (line : List Char) : List PolicyItem × List String × List String :=
  let items := st.1
  let pu := st.2.1
  let pg := st.2.2
  if line = [] ∨ listStartsWith "#".toList line then st
  else if listStartsWith "user:".toList line then
    match splitOnChar ':' line with
    | _ :: p1 :: p2 :: _ =>
      let user := if p1 ≠ [] then p1 else owner
      if user ≠ [] ∧ String.mk user ∉ pu then
        let accesses := convert_posix_to_ozone_permissions (String.mk p2)
        if accesses ≠ [] then
          (items ++ [{ users := [String.mk user], groups := [], roles := [],
                       accesses := accesses }],
           pu ++ [String.mk user], pg)
        else st
      else st
    | _ => st
  else if listStartsWith "group:".toList line then
    match splitOnChar ':' line with
    | _ :: p1 :: p2 :: _ =>
      let grp := if p1 ≠ [] then p1 else primary
      if grp ≠ [] ∧ String.mk grp ∉ pg then
        let accesses := convert_posix_to_ozone_permissions (String.mk p2)
        if accesses ≠ [] then
          (items ++ [{ users := [], groups := [String.mk grp], roles := [],
                       accesses := accesses }],
           pu, pg ++ [String.mk grp])
        else st
      else st
    | _ => st
  else st

/-- `parse_hdfs_facl_full_permissions`: one policy item per user/group
entry of a getfacl output, carrying the full translated permissions. -/
def parse_hdfs_facl_full_permissions (facl_output : String) : List PolicyItem :=
  let lines := faclLines facl_output
  let op := lines.foldl (fun (st : List Char × List Char) line =>
    if listStartsWith "# owner:".toList line then (trimChars (afterChar ':' line), st.2)
    else if listStartsWith "# group:".toList line then (st.1, trimChars (afterChar ':' line))
    else st) ([], [])
  (lines.foldl (parseFaclFullStep op.1 op.2) ([], [], [])).1

/-- `create_ozone_policies_from_hdfs_acls`: the ACL fallback resolver.
The filesystem is passed in explicitly: `getFacl` maps a path to its
getfacl output (empty string when unavailable) and `getSubdirs` maps a
path to its subdirectory names; `fid_dir` is the configured
FID_DIR_PREFIX (default `/data/`). -/
def create_ozone_policies_from_hdfs_acls (fid ozone_service : String)
    (fid_dir : String) (getFacl : String → String) (getSubdirs : String → List String) :
    List TargetPolicy :=
  let fid_path := fid_dir ++ fid
  let volume_facl := getFacl fid_path
  if volume_facl = "" then []
  else
    let ug := parse_hdfs_facl volume_facl
    if ug.1 = [] ∧ ug.2 = [] then []
    else
      let volume_policy : TargetPolicy :=
        { service := ozone_service
          name := fid ++ "_volume_policy_from_hdfs_acls"
          description := "Created from HDFS ACLs for " ++ fid_path
          volume := [fid]
          bucket := none
          key := none
          keyRecursive := false
          policyItems := [{ users := ug.1, groups := ug.2, roles := [],
                            accesses := [⟨"read", true⟩] }] }
      let buckets := getSubdirs fid_path
      if buckets = [] then [volume_policy]
      else
        let bucket_policy : TargetPolicy :=
          { service := ozone_service
            name := fid ++ "_bucket_policy_from_hdfs_acls"
            description := "Created from HDFS ACLs for buckets"
            volume := [fid]
            bucket := some buckets
            key := none
            keyRecursive := false
            policyItems := [{ users := ug.1, groups := ug.2, roles := [],
                              accesses := [⟨"read", true⟩] }] }
        let key_policies := buckets.filterMap (fun bucket =>
          let bucket_facl := getFacl (fid_path ++ "/" ++ bucket)
          if bucket_facl ≠ "" then
            let items := parse_hdfs_facl_full_permissions bucket_facl
            if items ≠ [] then
              some { service := ozone_service
                     name := fid ++ "_" ++ bucket ++ "_key_policy_from_hdfs_acls"
                     description := "Created from HDFS ACLs for " ++ (fid_path ++ "/" ++ bucket)
                     volume := [fid]
                     bucket := some [bucket]
                     key := some ["*"]
                     keyRecursive := true
                     policyItems := items }
            else none
          else none)
        [volume_policy, bucket_policy] ++ key_policies

/-- C3 (amended): every emitted TargetPolicy — from synthesis and from
the ACL fallback — names exactly one volume, and every policy carrying a
key resource names exactly one bucket; the CONTAINER-level (bucket)
policy, which carries no key resource, may name several buckets. -/
theorem target_policy_volume_bucket_shape (fid svc fid_dir : String)
    (ps : List SourcePolicy) (getFacl : String → String) (getSubdirs : String → List String) :
    (∀ pol, pol ∈ convert_hdfs_policies_for_fid fid ps svc →
       pol.volume = [fid] ∧ (pol.key.isSome = true → ∃ b, pol.bucket = some [b]))
    ∧ (∀ pol, pol ∈ create_ozone_policies_from_hdfs_acls fid svc fid_dir getFacl getSubdirs →
       pol.volume = [fid] ∧ (pol.key.isSome = true → ∃ b, pol.bucket = some [b])) := by
  constructor
  · intro pol h
    unfold convert_hdfs_policies_for_fid at h
    simp only [List.mem_append] at h
    rcases h with (h | h) | h
    · split at h
      · simp at h
        subst h
        simp [create_ozone_volume_policy]
      · simp at h
    · split at h
      · simp at h
        subst h
        simp [create_ozone_bucket_policy]
      · simp at h
    · rw [List.mem_flatMap] at h
      rcases h with ⟨p, _, hmem⟩
      rw [List.mem_filterMap] at hmem
      rcases hmem with ⟨path, _, heq⟩
      rcases hext : extract_bucket_and_key_from_path path fid with ⟨ob, ok⟩
      rw [hext] at heq
      cases ob with
      | none => cases ok <;> simp at heq
      | some b =>
        cases ok with
        | none => simp at heq
        | some k =>
          simp at heq
          subst heq
          refine ⟨rfl, fun _ => ⟨b, rfl⟩⟩
  · intro pol h
    unfold create_ozone_policies_from_hdfs_acls at h
    dsimp only at h
    split at h
    · simp at h
    · split at h
      · simp at h
      · split at h
        · simp at h
          subst h
          simp
        · simp only [List.cons_append, List.nil_append, List.mem_cons] at h
          rcases h with h | h | h
          · subst h; simp
          · subst h; simp
          · rw [List.mem_filterMap] at h
            rcases h with ⟨bucket, _, heq⟩
            split at heq
            · split at heq
              · simp at heq
                subst heq
                refine ⟨rfl, fun _ => ⟨bucket, rfl⟩⟩
              · simp at heq
            · simp at heq

/-- C3 witness: the shape facts applied to the volume policy emitted for
the concrete two-container input. -/
theorem target_policy_volume_bucket_shape_witness :
    (create_ozone_volume_policy "fid1" ["u1", "u2"] [] [] "svc").volume = ["fid1"]
    ∧ ((create_ozone_volume_policy "fid1" ["u1", "u2"] [] [] "svc").key.isSome = true →
        ∃ b, (create_ozone_volume_policy "fid1" ["u1", "u2"] [] [] "svc").bucket = some [b]) :=
  (target_policy_volume_bucket_shape "fid1" "svc" "/data/" [pC3a, pC3b]
      (fun _ => "") (fun _ => [])).1
    (create_ozone_volume_policy "fid1" ["u1", "u2"] [] [] "svc") (by decide)

/-- Lexicographic code-point ordering on strings, as Python compares
them in `sorted`. -/
def listCharLe : List Char → List Char → Bool
  | [], _ => true
  | _ :: _, [] => false
  | c :: cs, d :: ds =>
    if c.toNat < d.toNat then true
    else if d.toNat < c.toNat then false
    else listCharLe cs ds

def strLe (a b : String) : Bool :=
  listCharLe a.toList b.toList

/-- Insert into a sorted list, keeping order. -/
def insertSorted (x : String) : List String → List String
  | [] => [x]
  | y :: ys => if strLe x y then x :: y :: ys else y :: insertSorted x ys

/-- Python `sorted` on a list of (distinct) strings. -/
def sortStrings (l : List String) : List String :=
  l.foldr insertSorted []

theorem insertSorted_perm (x : String) (l : List String) :
    (insertSorted x l).Perm (x :: l) := by
  induction l with
  | nil => rfl
  | cons y ys ih =>
    unfold insertSorted
    split
    · rfl
    · exact ((ih.cons y).trans (List.Perm.swap x y ys))

theorem sortStrings_perm (l : List String) : (sortStrings l).Perm l := by
  induction l with
  | nil => rfl
  | cons a t ih =>
    exact (insertSorted_perm a (sortStrings t)).trans (ih.cons a)

theorem dedupAppend_nodup (l : List String) (x : String) (h : l.Nodup) :
    (dedupAppend l x).Nodup := by
  unfold dedupAppend
  by_cases hx : x ∈ l
  · rw [if_pos hx]
    exact h
  · rw [if_neg hx]
    rw [List.nodup_append]
    refine ⟨h, List.nodup_singleton x, ?_⟩
    intro a ha hax
    simp at hax
    subst hax
    exact hx ha

theorem foldl_preserve_nodup {α : Type} (f : List String → α → List String)
    (hf : ∀ acc a, acc.Nodup → (f acc a).Nodup)
    (xs : List α) (acc : List String) (h : acc.Nodup) : (xs.foldl f acc).Nodup := by
  induction xs generalizing acc with
  | nil => exact h
  | cons a t ih =>
    rw [List.foldl_cons]
    exact ih (f acc a) (hf acc a h)

/-- Step of the FID collection in `get_fids_from_hdfs_policies`. -/
def addFidFromPath (acc : List String) (path : String) : List String :=
  match extract_fid_from_path path with
  | some fid => dedupAppend acc fid
  | none => acc

/-- Python `if exclude_fids: keep the entries not in it` — `None` or an
empty list disables the filter. -/
def applyExcFilter (exclude_fids : Option (List String)) (l : List String) : List String :=
  match exclude_fids with
  | some exc => if exc ≠ [] then l.filter (fun f => f ∉ exc) else l
  | none => l

/-- Python `if include_fids: keep the entries in it` — `None` or an
empty list disables the filter. -/
def applyIncFilter (include_fids : Option (List String)) (l : List String) : List String :=
  match include_fids with
  | some inc => if inc ≠ [] then l.filter (fun f => f ∈ inc) else l
  | none => l

/-- `get_fids_from_hdfs_policies`: the distinct FIDs referenced by the
HDFS policies' paths, then filtered by the optional exclude and include
lists. -/
def get_fids_from_hdfs_policies (hdfs_policies : List SourcePolicy)
    (include_fids exclude_fids : Option (List String)) : List String :=
  applyIncFilter include_fids (applyExcFilter exclude_fids
    (hdfs_policies.foldl (fun acc p => p.paths.foldl addFidFromPath acc) []))

/-- The FID worklist of `convert_all_hdfs_policies`: the Ranger FIDs,
plus the explicitly included FIDs when the ACL fallback is enabled,
minus the excluded FIDs, sorted. -/
def fids_to_process (hdfs_policies : List SourcePolicy)
    (include_fids exclude_fids : Option (List String)) (aclEnabled : Bool) : List String :=
  let ranger := get_fids_from_hdfs_policies hdfs_policies include_fids exclude_fids
  let withInc := match include_fids with
    | some inc => if inc ≠ [] ∧ aclEnabled then inc.foldl dedupAppend ranger else ranger
    | none => ranger
  sortStrings (applyExcFilter exclude_fids withInc)

/-- Which of the two policy sources was used for one FID. -/
inductive FidBranch | fromRanger | fromAcl | skipped
deriving DecidableEq, Repr

/-- Per-FID body of the loop in `convert_all_hdfs_policies`: translate
from the Ranger source policies when any were selected for this FID,
otherwise run the ACL fallback resolver when it is enabled, otherwise
skip. -/
def processFid (hdfs_policies : List SourcePolicy) (ozone_service : String)
    (aclEnabled : Bool) (fid_dir : String) (getFacl : String → String)
    (getSubdirs : String → List String) (fid : String) : FidBranch × List TargetPolicy :=
  let fid_policies := get_hdfs_policies_for_fid fid hdfs_policies
  if fid_policies ≠ [] then
    (.fromRanger, convert_hdfs_policies_for_fid fid fid_policies ozone_service)
  else if aclEnabled then
    (.fromAcl, create_ozone_policies_from_hdfs_acls fid ozone_service fid_dir getFacl getSubdirs)
  else (.skipped, [])

/-- `convert_all_hdfs_policies`: process every FID of the worklist once,
concatenating the per-FID results. -/
def convert_all_hdfs_policies (hdfs_policies : List SourcePolicy) (ozone_service : String)
    (include_fids exclude_fids : Option (List String)) (aclEnabled : Bool)
    (fid_dir : String) (getFacl : String → String) (getSubdirs : String → List String) :
    List TargetPolicy :=
  (fids_to_process hdfs_policies include_fids exclude_fids aclEnabled).flatMap
    (fun fid => (processFid hdfs_policies ozone_service aclEnabled fid_dir getFacl getSubdirs fid).2)

theorem applyExcFilter_nodup (exclude_fids : Option (List String)) (l : List String)
    (h : l.Nodup) : (applyExcFilter exclude_fids l).Nodup := by
  unfold applyExcFilter
  cases exclude_fids with
  | none => exact h
  | some exc =>
    dsimp only
    by_cases hc : exc ≠ []
    · rw [if_pos hc]
      exact h.filter _
    · rw [if_neg hc]
      exact h

theorem applyIncFilter_nodup (include_fids : Option (List String)) (l : List String)
    (h : l.Nodup) : (applyIncFilter include_fids l).Nodup := by
  unfold applyIncFilter
  cases include_fids with
  | none => exact h
  | some inc =>
    dsimp only
    by_cases hc : inc ≠ []
    · rw [if_pos hc]
      exact h.filter _
    · rw [if_neg hc]
      exact h

theorem fids_to_process_nodup (hdfs_policies : List SourcePolicy)
    (include_fids exclude_fids : Option (List String)) (aclEnabled : Bool) :
    (fids_to_process hdfs_policies include_fids exclude_fids aclEnabled).Nodup := by
  have hbase : (hdfs_policies.foldl (fun acc p => p.paths.foldl addFidFromPath acc) []).Nodup := by
    refine foldl_preserve_nodup _ ?_ hdfs_policies [] List.nodup_nil
    intro acc p hacc
    refine foldl_preserve_nodup addFidFromPath ?_ p.paths acc hacc
    intro acc2 q h2
    unfold addFidFromPath
    cases extract_fid_from_path q
    · exact h2
    · exact dedupAppend_nodup _ _ h2
  have hranger : (get_fids_from_hdfs_policies hdfs_policies include_fids exclude_fids).Nodup :=
    applyIncFilter_nodup _ _ (applyExcFilter_nodup _ _ hbase)
  unfold fids_to_process
  dsimp only
  refine ((sortStrings_perm _).nodup_iff).mpr ?_
  refine applyExcFilter_nodup _ _ ?_
  cases include_fids with
  | none => exact hranger
  | some inc =>
    dsimp only
    by_cases hc : inc ≠ [] ∧ aclEnabled = true
    · rw [if_pos hc]
      exact foldl_preserve_nodup dedupAppend (fun acc a h => dedupAppend_nodup acc a h)
        inc _ hranger
    · rw [if_neg hc]
      exact hranger

/-- C6: per root identifier, exactly one of the two sources is used. The
loop body takes the Ranger branch iff some source policy was selected for
the identifier; the ACL fallback branch runs iff zero source policies
were selected and the fallback is enabled; the two branches are mutually
exclusive; the worklist processes every identifier at most once; and the
whole run is the concatenation of the per-identifier results. -/
theorem fallback_mutual_exclusion
    (hdfs_policies : List SourcePolicy) (ozone_service : String)
    (include_fids exclude_fids : Option (List String)) (aclEnabled : Bool)
    (fid_dir : String) (getFacl : String → String) (getSubdirs : String → List String)
    (fid : String) :
    ((processFid hdfs_policies ozone_service aclEnabled fid_dir getFacl getSubdirs fid).1
        = FidBranch.fromRanger
      ↔ get_hdfs_policies_for_fid fid hdfs_policies ≠ [])
    ∧ ((processFid hdfs_policies ozone_service aclEnabled fid_dir getFacl getSubdirs fid).1
        = FidBranch.fromAcl
      ↔ (get_hdfs_policies_for_fid fid hdfs_policies = [] ∧ aclEnabled = true))
    ∧ ¬((processFid hdfs_policies ozone_service aclEnabled fid_dir getFacl getSubdirs fid).1
          = FidBranch.fromRanger
        ∧ (processFid hdfs_policies ozone_service aclEnabled fid_dir getFacl getSubdirs fid).1
          = FidBranch.fromAcl)
    ∧ ((processFid hdfs_policies ozone_service aclEnabled fid_dir getFacl getSubdirs fid).1
          = FidBranch.fromRanger →
        (processFid hdfs_policies ozone_service aclEnabled fid_dir getFacl getSubdirs fid).2
          = convert_hdfs_policies_for_fid fid (get_hdfs_policies_for_fid fid hdfs_policies)
              ozone_service)
    ∧ ((processFid hdfs_policies ozone_service aclEnabled fid_dir getFacl getSubdirs fid).1
          = FidBranch.fromAcl →
        (processFid hdfs_policies ozone_service aclEnabled fid_dir getFacl getSubdirs fid).2
          = create_ozone_policies_from_hdfs_acls fid ozone_service fid_dir getFacl getSubdirs)
    ∧ (fids_to_process hdfs_policies include_fids exclude_fids aclEnabled).Nodup
    ∧ convert_all_hdfs_policies hdfs_policies ozone_service include_fids exclude_fids
        aclEnabled fid_dir getFacl getSubdirs
      = (fids_to_process hdfs_policies include_fids exclude_fids aclEnabled).flatMap
          (fun f => (processFid hdfs_policies ozone_service aclEnabled fid_dir getFacl getSubdirs f).2) := by
  refine ⟨?_, ?_, ?_, ?_, ?_, fids_to_process_nodup _ _ _ _, rfl⟩ <;>
    unfold processFid <;>
    by_cases hp : get_hdfs_policies_for_fid fid hdfs_policies = [] <;>
    cases aclEnabled <;>
    simp [hp]

/-- C6 witness: the branch facts evaluated at a concrete run with one
source policy for fid1 and the fallback enabled. -/
theorem fallback_mutual_exclusion_witness :
    ¬((processFid [pC3a] "svc" true "/data/" (fun _ => "") (fun _ => []) "fid1").1
        = FidBranch.fromRanger
      ∧ (processFid [pC3a] "svc" true "/data/" (fun _ => "") (fun _ => []) "fid1").1
        = FidBranch.fromAcl) :=
  (fallback_mutual_exclusion [pC3a] "svc" none none true "/data/"
    (fun _ => "") (fun _ => []) "fid1").2.2.1

/-- A Hive policy, flattened to the fields `clone_hive_policy` reads:
its name and the value lists of the database/url/table/column/udf
resources (absent resource or absent `values` key modelled as `none`). -/
structure HivePolicy where
  name : String
  database : Option (List String)
  url : Option (List String)
  table : Option (List String)
  column : Option (List String)
  udf : Option (List String)
deriving DecidableEq, Repr

/-- The clone produced by `clone_hive_policy` (id/guid/version dropped). -/
structure ClonedHivePolicy where
  name : String
  description : String
  database : Option (List String)
  url : Option (List String)
  table : Option (List String)
  column : Option (List String)
  udf : Option (List String)
deriving DecidableEq, Repr

/-- Attempt to match the URL pattern
`hdfs://[^/]+/data/([^/]+)/(raw|managed|work)/hive/([^/\s]+)` anchored at
the start of `s`; returns the three captured groups. -/
def parseHdfsUrlAt (s : List Char) : Option (List Char × List Char × List Char) :=
  match chompPre "hdfs://".toList s with
  | none => none
  | some r1 =>
    let host := r1.takeWhile (fun c => c ≠ '/')
    if host = [] then none
    else
      match chompPre "/data/".toList (r1.dropWhile (fun c => c ≠ '/')) with
      | none => none
      | some r2 =>
        let fid := r2.takeWhile (fun c => c ≠ '/')
        if fid = [] then none
        else
          match chompPre ['/'] (r2.dropWhile (fun c => c ≠ '/')) with
          | none => none
          | some r3 =>
            let tryLayer := fun (layer : List Char) =>
              match chompPre layer r3 with
              | none => none
              | some r4 =>
                match chompPre "/hive/".toList r4 with
                | none => none
                | some r5 =>
                  let db := r5.takeWhile (fun c => !(c = '/' || isPySpace c))
                  if db = [] then none else some (fid, layer, db)
            match tryLayer "raw".toList with
            | some res => some res
            | none =>
              match tryLayer "managed".toList with
              | some res => some res
              | none => tryLayer "work".toList

/-- `re.search` of the URL pattern: try every start position from the
left. -/
def searchHdfsUrl : List Char → Option (List Char × List Char × List Char)
  | [] => none
  | c :: rest =>
    match parseHdfsUrlAt (c :: rest) with
    | some r => some r
    | none => searchHdfsUrl rest

/-- Python `str.replace` (all occurrences, left to right), fuelled by the
input length; the pattern is nonempty at every call site. -/
def replaceListAux (pat rep : List Char) : Nat → List Char → List Char
  | _, [] => []
  | 0, s => s
  | fuel + 1, c :: rest =>
    match chompPre pat (c :: rest) with
    | some rem => rep ++ replaceListAux pat rep fuel rem
    | none => c :: replaceListAux pat rep fuel rest

def replaceList (pat rep s : List Char) : List Char :=
  if pat = [] then s else replaceListAux pat rep s.length s

/-- The per-URL transformation of `clone_hive_policy`: rewrite a matched
`hdfs://.../data/<fid>/<layer>/hive/<db>` URL to the Ozone form, or fall
back to textual replacement of the scheme and of `/data/`. -/
def transformUrl (ozone_service_id : String) (url : String) : String :=
  let u := trimChars url.toList
  match searchHdfsUrl u with
  | some (fid, layer, db) =>
    "ofs://" ++ ozone_service_id ++ "/" ++ String.mk fid ++ "/" ++ String.mk layer
      ++ "/hive/" ++ String.mk db
  | none =>
    String.mk (replaceList "/data/".toList "/".toList
      (replaceList "hdfs://".toList ("ofs://" ++ ozone_service_id ++ "/").toList u))

/-- The `db=` fragment: present whenever a database resource exists, over
the prefixed values. -/
def dbNamePart (ozone_pre : String) (database : Option (List String)) : Option String :=
  match database with
  | some vs => some ("db=" ++ String.intercalate "," (vs.map (fun db => ozone_pre ++ "_" ++ db)))
  | none => none

/-- The `url=` fragment: the first transformed URL, when any exists. -/
def urlNamePart (ozone_service_id : String) (url : Option (List String)) : Option String :=
  match url with
  | some us =>
    match us.map (transformUrl ozone_service_id) with
    | [] => none
    | u :: _ => some ("url=" ++ u)
  | none => none

/-- The `tbl=` fragment: skipped for an empty list and for the single
wildcard. -/
def tblNamePart (table : Option (List String)) : Option String :=
  match table with
  | some ts =>
    if ts ≠ [] ∧ ts ≠ ["*"] then some ("tbl=" ++ String.intercalate "," ts) else none
  | none => none

/-- The `col=` fragment: skipped for an empty list and for the single
wildcard, like tables. -/
def colNamePart (column : Option (List String)) : Option String :=
  match column with
  | some cs =>
    if cs ≠ [] ∧ cs ≠ ["*"] then some ("col=" ++ String.intercalate "," cs) else none
  | none => none

/-- The `udf=` fragment: present for any nonempty value list, wildcards
included (the source keeps wildcards for udf). -/
def udfNamePart (udf : Option (List String)) : Option String :=
  match udf with
  | some us => if us ≠ [] then some ("udf=" ++ String.intercalate "," us) else none
  | none => none

/-- The name fragments collected by `clone_hive_policy`, in source order:
database, url, table, column, udf. -/
def cloneNameParts (p : HivePolicy) (ozone_pre ozone_service_id : String) : List String :=
  [dbNamePart ozone_pre p.database, urlNamePart ozone_service_id p.url,
   tblNamePart p.table, colNamePart p.column, udfNamePart p.udf].filterMap id

/-- `clone_hive_policy`: deep-copy the policy, prefix the database
values, transform the URLs, keep table/column/udf bodies unchanged, and
derive the clone's name from the collected fragments — falling back to
`{ozone_pre}_{original_name}` when no fragment applies. -/
def clone_hive_policy (p : HivePolicy) (ozone_pre ozone_service_id : String) :
    ClonedHivePolicy :=
  { name :=
      if cloneNameParts p ozone_pre ozone_service_id = [] then ozone_pre ++ "_" ++ p.name
      else String.intercalate "," (cloneNameParts p ozone_pre ozone_service_id)
    description := "Cloned from " ++ p.name ++ " for Ozone migration with prefix " ++ ozone_pre
    database := p.database.map (fun vs => vs.map (fun db => ozone_pre ++ "_" ++ db))
    url := p.url.map (fun us => us.map (transformUrl ozone_service_id))
    table := p.table
    column := p.column
    udf := p.udf }

/-- C7 counterexample input: wildcard table, column and udf resources. -/
def pC7 : HivePolicy :=
  { name := "orig", database := none, url := none,
    table := some ["*"], column := some ["*"], udf := some ["*"] }

/-- C7 counterexample: a udf resource holding the single wildcard does
contribute a fragment — the clone is named `udf=*`, the wildcard appears
in the synthesized name, and the fallback `oz_orig` is not used. -/
theorem clone_udf_wildcard_in_name_cex :
    (clone_hive_policy pC7 "oz" "sid").name = "udf=*"
    ∧ (clone_hive_policy pC7 "oz" "sid").name ≠ "oz_orig" := by
  refine ⟨?_, ?_⟩ <;> decide

/-- C7 (amended): table and column wildcard value lists contribute no
fragment to the clone's name while staying in the resource body, and
specific values do contribute; a udf wildcard, however, is kept and
contributes the fragment `udf=*`; when no fragment applies the name is
`{ozone_pre}_{originalName}`. -/
theorem clone_name_wildcard_spec (p : HivePolicy) (ozone_pre ozone_service_id : String) :
    ((clone_hive_policy p ozone_pre ozone_service_id).name =
      if cloneNameParts p ozone_pre ozone_service_id = [] then ozone_pre ++ "_" ++ p.name
      else String.intercalate "," (cloneNameParts p ozone_pre ozone_service_id))
    ∧ (p.table = some ["*"] →
        tblNamePart p.table = none
        ∧ (clone_hive_policy p ozone_pre ozone_service_id).table = some ["*"])
    ∧ (p.column = some ["*"] →
        colNamePart p.column = none
        ∧ (clone_hive_policy p ozone_pre ozone_service_id).column = some ["*"])
    ∧ (∀ ts, p.table = some ts → ts ≠ [] → ts ≠ ["*"] →
        tblNamePart p.table = some ("tbl=" ++ String.intercalate "," ts))
    ∧ (∀ cs, p.column = some cs → cs ≠ [] → cs ≠ ["*"] →
        colNamePart p.column = some ("col=" ++ String.intercalate "," cs))
    ∧ (p.udf = some ["*"] → udfNamePart p.udf = some "udf=*") := by
  refine ⟨rfl, ?_, ?_, ?_, ?_, ?_⟩
  · intro h
    exact ⟨by rw [h]; simp [tblNamePart], by simp [clone_hive_policy, h]⟩
  · intro h
    exact ⟨by rw [h]; simp [colNamePart], by simp [clone_hive_policy, h]⟩
  · intro ts h hne hnw
    rw [h]
    simp [tblNamePart, hne, hnw]
  · intro cs h hne hnw
    rw [h]
    simp [colNamePart, hne, hnw]
  · intro h
    rw [h]
    decide

/-- C7 witness: the amended statement evaluated at the all-wildcards
policy. -/
theorem clone_name_wildcard_spec_witness :
    (tblNamePart pC7.table = none ∧ (clone_hive_policy pC7 "oz" "sid").table = some ["*"])
    ∧ (colNamePart pC7.column = none ∧ (clone_hive_policy pC7 "oz" "sid").column = some ["*"])
    ∧ udfNamePart pC7.udf = some "udf=*" :=
  ⟨(clone_name_wildcard_spec pC7 "oz" "sid").2.1 rfl,
   (clone_name_wildcard_spec pC7 "oz" "sid").2.2.1 rfl,
   (clone_name_wildcard_spec pC7 "oz" "sid").2.2.2.2.2 rfl⟩

end RangerMigration
